import Mathlib

/-!
Verification development for the PNG encoder and noise engine of
`generate_campaign.js` (the "dnd-save" campaign generator).

The relevant JavaScript functions (`makeCRCTable`, `crc32`, `chunk`,
`makePNG`, `hash`, `noise`, `fbm`) are shallowly embedded below.
Machine 32-bit unsigned arithmetic (`>>> 0`, `Math.imul`, `Uint32Array`
storage) is modelled on `Nat`/`Int` with explicit reduction modulo `2^32`;
JavaScript doubles are modelled as rationals (every finite double is a
rational number; at every concrete input used below the integer
pipeline is exact, since all intermediate integer values stay far below
`2^53`, and the rounding of the one final double division never changes
a sign or an interval-membership fact stated below).  The external collaborator `zlib.deflateSync` is an
injected parameter `compress`, exactly as the design document treats it.
-/

namespace DndSave

/-! ## Checksum table and CRC-32 (source: `makeCRCTable`, `crc32`) -/

/-- One shift-and-conditionally-XOR step of the table construction:
`c = (c & 1) ? (0xEDB88320 ^ (c >>> 1)) : (c >>> 1)`. -/
def crcStep (c : Nat) : Nat :=
  if c % 2 = 1 then 0xEDB88320 ^^^ (c >>> 1) else c >>> 1

/-- The inner `for (k = 0; k < 8; k++)` loop of `makeCRCTable`. -/
def crcIter : Nat → Nat → Nat
  | 0, c => c
  | k + 1, c => crcIter k (crcStep c)

/-- Entry `i` of the CRC table `CRC = makeCRCTable()`: eight `crcStep`
iterations starting from `i`. -/
def crcEntry (i : Nat) : Nat := crcIter 8 i

/-- The byte loop of `crc32`:
`c = (c >>> 8) ^ CRC[(c ^ buf[i]) & 0xFF]` for each byte. -/
def crc32Aux : List Nat → Nat → Nat
  | [], c => c
  | b :: bs, c => crc32Aux bs ((c >>> 8) ^^^ crcEntry ((c ^^^ b) &&& 0xFF))

/-- `crc32(buf)`: table-driven CRC-32, initial register `0xFFFFFFFF`,
final result `(c ^ 0xFFFFFFFF) >>> 0`. -/
def crc32 (buf : List Nat) : Nat := crc32Aux buf 0xFFFFFFFF ^^^ 0xFFFFFFFF

/-! ## Chunk framing (source: `chunk`) -/

/-- Big-endian 4-byte serialization, the effect of `writeUInt32BE(n, 0)`
on a 4-byte buffer (defined for `n < 2^32`). -/
def u32be (n : Nat) : List Nat :=
  [n / 2 ^ 24 % 256, n / 2 ^ 16 % 256, n / 2 ^ 8 % 256, n % 256]

/-- Big-endian interpretation of a byte list (used to state that the
serialized length/CRC fields decode to the intended values). -/
def beVal (l : List Nat) : Nat := l.foldl (fun acc b => acc * 256 + b) 0

/-- The byte layout built by `chunk(type, data)`:
`Buffer.concat([lb, tb, db, cb])` with `lb = lengthBE`, `tb = type`,
`db = data`, `cb = crcBE(crc32(type ++ data))`. -/
def chunkBytes (type data : List Nat) : List Nat :=
  u32be data.length ++ type ++ data ++ u32be (crc32 (type ++ data))

/-- `chunk(type, data)`.  `writeUInt32BE` throws a `RangeError` when its
argument does not fit in 32 bits, so the result is `none` when
`data.length ≥ 2^32`; the CRC always fits. -/
def chunk (type data : List Nat) : Option (List Nat) :=
  if data.length < 2 ^ 32 then some (chunkBytes type data) else none

/-! ## Raster canvas and PNG assembly (source: `makePNG`) -/

/-- A pixel as returned by `getPixel(x, y)`: four JavaScript numbers
`[r, g, b, a]`, modelled as integers (integer channel values). -/
def Pixel := ℤ × ℤ × ℤ × ℤ

/-- The byte stored by a `Uint8Array`/`Buffer` assignment `raw[off] = v`
for an integer value `v`: reduction modulo 256. -/
def pngByte (v : ℤ) : Nat := (v % 256).toNat

/-- The four bytes `raw[off++] = r; ... = g; ... = b; ... = a` written
for one pixel. -/
def pixelBytes (p : Pixel) : List Nat :=
  [pngByte p.1, pngByte p.2.1, pngByte p.2.2.1, pngByte p.2.2.2]

/-- The inner `for (x = 0; x < w; x++)` loop of `makePNG`, writing the
pixels of row `y` starting at column `x`, with `k` columns remaining. -/
def pixelsFrom (g : ℤ → ℤ → Pixel) (y : ℤ) : ℤ → Nat → List Nat
  | _, 0 => []
  | x, k + 1 => pixelBytes (g x y) ++ pixelsFrom g y (x + 1) k

/-- One scanline of the raw buffer: the filter byte `raw[off++] = 0`
followed by the `w` pixels of row `y`. -/
def scanline (g : ℤ → ℤ → Pixel) (w : Nat) (y : ℤ) : List Nat :=
  0 :: pixelsFrom g y 0 w

/-- The outer `for (y = 0; y < h; y++)` loop: scanlines from row `y` on,
with `k` rows remaining. -/
def scanlinesFrom (g : ℤ → ℤ → Pixel) (w : Nat) : ℤ → Nat → List Nat
  | _, 0 => []
  | y, k + 1 => scanline g w y ++ scanlinesFrom g w (y + 1) k

/-- The fully written raw scanline buffer for positive dimensions. -/
def rawData (w h : Nat) (g : ℤ → ℤ → Pixel) : List Nat :=
  scanlinesFrom g w 0 h

/-- The raw buffer `makePNG` hands to the compressor: `Buffer.alloc`
zero-fills, and the write loops run only for `0 ≤ y < h`, so for
`h ≤ 0` the buffer keeps its zero fill. -/
def pngRaw (w h : ℤ) (g : ℤ → ℤ → Pixel) : List Nat :=
  if h ≤ 0 then List.replicate (h * (1 + w * 4)).toNat 0
  else rawData w.toNat h.toNat g

/-- The 8-byte PNG signature `[137,80,78,71,13,10,26,10]`. -/
def SIG : List Nat := [137, 80, 78, 71, 13, 10, 26, 10]

/-- ASCII bytes of the tag `"IHDR"`. -/
def tagIHDR : List Nat := [73, 72, 68, 82]

/-- ASCII bytes of the tag `"IDAT"`. -/
def tagIDAT : List Nat := [73, 68, 65, 84]

/-- ASCII bytes of the tag `"IEND"`. -/
def tagIEND : List Nat := [73, 69, 78, 68]

/-- The 13-byte IHDR payload: width BE, height BE, then
`ihdr[8] = 8; ihdr[9] = 6` and the zero fill of `Buffer.alloc(13)`
for bytes 10..12 (compression, filter, interlace). -/
def ihdrData (w h : ℤ) : List Nat :=
  u32be w.toNat ++ u32be h.toNat ++ [8, 6, 0, 0, 0]

/-- `makePNG(w, h, getPixel)` up to (but not including) the final
base64 text encoding, with the compressor injected.  Failure modes of
the source are `none`: `Buffer.alloc` throws on a negative size, and
`writeUInt32BE` throws when `w` or `h` is negative or `≥ 2^32`, or when
the compressed payload length is `≥ 2^32` (checked inside `chunk`). -/
def makePNG (w h : ℤ) (g : ℤ → ℤ → Pixel) (compress : List Nat → List Nat) :
    Option (List Nat) :=
  if h * (1 + w * 4) < 0 then none
  else
    let compressed := compress (pngRaw w h g)
    if 0 ≤ w ∧ w < 2 ^ 32 ∧ 0 ≤ h ∧ h < 2 ^ 32 then
      match chunk tagIHDR (ihdrData w h), chunk tagIDAT compressed,
          chunk tagIEND [] with
      | some c1, some c2, some c3 => some (SIG ++ c1 ++ c2 ++ c3)
      | _, _, _ => none
    else none

/-! ## Noise field (source: `hash`, `noise`, `fbm`)

JavaScript number values are modelled as rationals.  Inside `hash` the
source mixes with 32-bit machine operations: `>>> 0` is reduction modulo
`2^32` of an exactly-representable integer, `h >>> k` is division by
`2^k` of a `uint32`, and `Math.imul(a, b) >>> 0` is `a * b % 2^32`.
The operator `^` acts as `Nat.xor` on the 32-bit pattern but returns a
SIGNED int32; wherever an intermediate is immediately fed back through
`>>> k`, `Math.imul` or `>>> 0` only the pattern matters, but the final
`h ^= h >>> 15` keeps the signed value, reflected by `toInt32`. -/

/-- The integer mixing pipeline of `hash`, producing the final 32-bit
pattern (as an unsigned value) before the signed reinterpretation and
the division:
`h = (x*374761393 + y*668265263 + seed*1234567891) >>> 0`,
`h ^= h >>> 13`, `h = imul(h, 1540483477) >>> 0`, `h ^= h >>> 15`. -/
def hashNat (x y seed : ℤ) : Nat :=
  let h0 : Nat := ((x * 374761393 + y * 668265263 + seed * 1234567891) % 2 ^ 32).toNat
  let h1 : Nat := h0 ^^^ (h0 >>> 13)
  let h2 : Nat := h1 * 1540483477 % 2 ^ 32
  h2 ^^^ (h2 >>> 15)

/-- Signed reinterpretation of a 32-bit pattern, the value a JavaScript
bitwise operator returns: patterns with bit 31 set are negative. -/
def toInt32 (n : Nat) : ℤ :=
  if n < 2 ^ 31 then (n : ℤ) else (n : ℤ) - 2 ^ 32

/-- `hash(x, y, seed)`: the final statement `h ^= h >>> 15` is a signed
32-bit XOR with no trailing `>>> 0` (unlike the first line and unlike
`crc32`), so the value returned is the signed int32 reinterpretation of
the mixed pattern, divided by `0xFFFFFFFF` (`2^32 - 1`). -/
def hash (x y seed : ℤ) : ℚ := (toInt32 (hashNat x y seed) : ℚ) / 0xFFFFFFFF

/-- Lower bound of the range of `hash`: the least int32 value over
`0xFFFFFFFF`, slightly below `-1/2`. -/
def hashLo : ℚ := -(2 ^ 31) / (2 ^ 32 - 1)

/-- Upper bound of the range of `hash`: the greatest int32 value over
`0xFFFFFFFF`, slightly below `1/2`. -/
def hashHi : ℚ := (2 ^ 31 - 1) / (2 ^ 32 - 1)

/-- `lerp(a, b, t) = a + (b - a) * t`. -/
def lerp (a b t : ℚ) : ℚ := a + (b - a) * t

/-- `noise(x, y, seed)`: bilinear interpolation of `hash` at the four
surrounding lattice points, with smoothstep easing `t*t*(3 - 2*t)` of
each fractional coordinate. -/
def noise (x y : ℚ) (seed : ℤ) : ℚ :=
  let xi : ℤ := ⌊x⌋
  let yi : ℤ := ⌊y⌋
  let xf : ℚ := x - xi
  let yf : ℚ := y - yi
  let v00 := hash xi yi seed
  let v10 := hash (xi + 1) yi seed
  let v01 := hash xi (yi + 1) seed
  let v11 := hash (xi + 1) (yi + 1) seed
  let sx := xf * xf * (3 - 2 * xf)
  let sy := yf * yf * (3 - 2 * yf)
  lerp (lerp v00 v10 sx) (lerp v01 v11 sx) sy

/-- The `for (i = 0; i < octaves; i++)` loop of `fbm`, carried state
`(i, v, amp, freq, max)` with the remaining iteration count first;
per iteration: `v += noise(x*freq, y*freq, seed+i) * amp;
max += amp; amp *= 0.5; freq *= 2`. -/
def fbmLoop (x y : ℚ) (seed : ℤ) :
    Nat → Nat → ℚ → ℚ → ℚ → ℚ → ℚ × ℚ
  | 0, _, v, _, _, maxv => (v, maxv)
  | k + 1, i, v, amp, freq, maxv =>
      fbmLoop x y seed k (i + 1)
        (v + noise (x * freq) (y * freq) (seed + i) * amp)
        (amp * (1 / 2)) (freq * 2) (maxv + amp)

/-- `fbm(x, y, seed, octaves)`: run the octave loop from
`v = 0, amp = 0.5, freq = 1, max = 0` and return `v / max`. -/
def fbm (x y : ℚ) (seed : ℤ) (octaves : Nat) : ℚ :=
  let p := fbmLoop x y seed octaves 0 0 (1 / 2) 1 0
  p.1 / p.2

/-! ## Concrete pixel functions used as test inputs -/

/-- A pixel function returning a constant all-zero pixel. -/
def pxZero : ℤ → ℤ → Pixel := fun _ _ => (0, 0, 0, 0)

/-- A pixel function returning in-range channels `(1, 2, 3, 4)`. -/
def pxDemo : ℤ → ℤ → Pixel := fun _ _ => (1, 2, 3, 4)

/-- A pixel function returning out-of-range channels
`(300, -1, 256, 511)`, used to exhibit modulo-256 wrapping. -/
def pxWrap : ℤ → ℤ → Pixel := fun _ _ => (300, -1, 256, 511)

/-! ## Helper lemmas: CRC-32 stays a `uint32` -/

lemma crcStep_lt {c : Nat} (h : c < 2 ^ 32) : crcStep c < 2 ^ 32 := by
  unfold crcStep
  have hdiv : c >>> 1 < 2 ^ 32 := by
    have := Nat.div_le_self c 2
    simpa [Nat.shiftRight_eq_div_pow] using lt_of_le_of_lt this h
  split
  · exact Nat.xor_lt_two_pow (by norm_num) hdiv
  · exact hdiv

lemma crcIter_lt {c : Nat} (h : c < 2 ^ 32) (k : Nat) : crcIter k c < 2 ^ 32 := by
  induction k generalizing c with
  | zero => simpa [crcIter] using h
  | succ n ih => simpa [crcIter] using ih (crcStep_lt h)

lemma crcEntry_lt {i : Nat} (h : i < 2 ^ 32) : crcEntry i < 2 ^ 32 :=
  crcIter_lt h 8

lemma crc32Aux_lt (l : List Nat) {c : Nat} (h : c < 2 ^ 32) :
    crc32Aux l c < 2 ^ 32 := by
  induction l generalizing c with
  | nil => simpa [crc32Aux] using h
  | cons b bs ih =>
      have harg : (c >>> 8) ^^^ crcEntry ((c ^^^ b) &&& 0xFF) < 2 ^ 32 := by
        refine Nat.xor_lt_two_pow ?_ (crcEntry_lt ?_)
        · have := Nat.div_le_self c (2 ^ 8)
          simpa [Nat.shiftRight_eq_div_pow] using lt_of_le_of_lt this h
        · have h8 : (c ^^^ b) &&& 0xFF < 2 ^ 8 := Nat.and_lt_two_pow _ (by norm_num)
          exact lt_of_lt_of_le h8 (by norm_num)
      simpa [crc32Aux] using ih harg

/-- The CRC-32 result always fits in 32 bits (the source masks with
`>>> 0`; here the fold preserves the bound). -/
lemma crc32_lt (buf : List Nat) : crc32 buf < 2 ^ 32 :=
  Nat.xor_lt_two_pow (crc32Aux_lt buf (by norm_num)) (by norm_num)

/-! ## Helper lemmas: big-endian 4-byte fields -/

lemma u32be_length (n : Nat) : (u32be n).length = 4 := rfl

lemma beVal_u32be {n : Nat} (h : n < 2 ^ 32) : beVal (u32be n) = n := by
  simp only [u32be, beVal, List.foldl]
  omega

/-! ## Helper lemmas: raw scanline buffer layout -/

lemma pixelBytes_length (p : Pixel) : (pixelBytes p).length = 4 := rfl

lemma pixelsFrom_length (g : ℤ → ℤ → Pixel) (y : ℤ) :
    ∀ (k : Nat) (x : ℤ), (pixelsFrom g y x k).length = 4 * k := by
  intro k
  induction k with
  | zero => intro x; simp [pixelsFrom]
  | succ n ih =>
      intro x
      simp [pixelsFrom, pixelBytes_length, ih (x + 1)]
      ring

lemma scanline_length (g : ℤ → ℤ → Pixel) (w : Nat) (y : ℤ) :
    (scanline g w y).length = 1 + w * 4 := by
  simp [scanline, pixelsFrom_length]
  ring

lemma scanlinesFrom_length (g : ℤ → ℤ → Pixel) (w : Nat) :
    ∀ (k : Nat) (y : ℤ), (scanlinesFrom g w y k).length = k * (1 + w * 4) := by
  intro k
  induction k with
  | zero => intro y; simp [scanlinesFrom]
  | succ n ih =>
      intro y
      simp [scanlinesFrom, scanline_length, ih (y + 1)]
      ring

lemma pixelsFrom_getElem (g : ℤ → ℤ → Pixel) (y : ℤ) :
    ∀ (q : Nat) (k : Nat) (x : ℤ) (j : Nat), q < k → j < 4 →
      (pixelsFrom g y x k)[4 * q + j]? = (pixelBytes (g (x + q) y))[j]? := by
  intro q
  induction q with
  | zero =>
      intro k x j hq hj
      obtain ⟨k', rfl⟩ : ∃ k', k = k' + 1 := ⟨k - 1, by omega⟩
      rw [pixelsFrom]
      rw [List.getElem?_append_left (by simpa [pixelBytes_length] using hj)]
      simp
  | succ n ih =>
      intro k x j hq hj
      obtain ⟨k', rfl⟩ : ∃ k', k = k' + 1 := ⟨k - 1, by omega⟩
      rw [pixelsFrom]
      rw [List.getElem?_append_right (by simp [pixelBytes_length]; omega)]
      have harith : 4 * (n + 1) + j - (pixelBytes (g x y)).length = 4 * n + j := by
        simp [pixelBytes_length]; omega
      rw [harith, ih k' (x + 1) j (by omega) hj]
      have : x + 1 + (n : ℤ) = x + ((n : ℤ) + 1) := by ring
      simp [this]

lemma scanlinesFrom_getElem (g : ℤ → ℤ → Pixel) (w : Nat) :
    ∀ (q : Nat) (k : Nat) (y : ℤ) (j : Nat), q < k → j < 1 + w * 4 →
      (scanlinesFrom g w y k)[q * (1 + w * 4) + j]? = (scanline g w (y + q))[j]? := by
  intro q
  induction q with
  | zero =>
      intro k y j hq hj
      obtain ⟨k', rfl⟩ : ∃ k', k = k' + 1 := ⟨k - 1, by omega⟩
      rw [scanlinesFrom]
      rw [List.getElem?_append_left (by simpa [scanline_length] using hj)]
      simp
  | succ n ih =>
      intro k y j hq hj
      obtain ⟨k', rfl⟩ : ∃ k', k = k' + 1 := ⟨k - 1, by omega⟩
      rw [scanlinesFrom]
      rw [List.getElem?_append_right (by simp [scanline_length]; nlinarith)]
      have harith : (n + 1) * (1 + w * 4) + j - (scanline g w y).length
          = n * (1 + w * 4) + j := by
        simp [scanline_length]; ring_nf; omega
      rw [harith, ih k' (y + 1) j (by omega) hj]
      have : y + 1 + (n : ℤ) = y + ((n : ℤ) + 1) := by ring
      simp [this]

lemma rawData_length (w h : Nat) (g : ℤ → ℤ → Pixel) :
    (rawData w h g).length = h * (1 + w * 4) :=
  scanlinesFrom_length g w h 0

lemma rawData_filter_byte (w h : Nat) (g : ℤ → ℤ → Pixel) {y : Nat}
    (hy : y < h) : (rawData w h g)[y * (1 + w * 4)]? = some 0 := by
  have := scanlinesFrom_getElem g w y h 0 0 hy (by omega)
  simp only [Nat.add_zero] at this
  rw [rawData, this]
  simp [scanline]

lemma rawData_pixel_byte (w h : Nat) (g : ℤ → ℤ → Pixel) {y x j : Nat}
    (hy : y < h) (hx : x < w) (hj : j < 4) :
    (rawData w h g)[y * (1 + w * 4) + (1 + (4 * x + j))]? =
      (pixelBytes (g x y))[j]? := by
  have h1 := scanlinesFrom_getElem g w y h 0 (1 + (4 * x + j)) hy (by omega)
  rw [rawData, h1]
  have h2 : (1 + (4 * x + j)) = (4 * x + j) + 1 := by omega
  rw [h2]
  show (scanline g w (0 + (y : ℤ)))[(4 * x + j) + 1]? = _
  rw [scanline, List.getElem?_cons_succ]
  have h3 := pixelsFrom_getElem g y x w 0 j hx hj
  simp only [zero_add] at h1 h3 ⊢
  rw [h3]

/-! ## Helper lemmas: hash / noise / fbm bounds -/

lemma xorshift_lt {h : Nat} (hh : h < 2 ^ 32) (k : Nat) :
    h ^^^ (h >>> k) < 2 ^ 32 := by
  refine Nat.xor_lt_two_pow hh ?_
  have := Nat.div_le_self h (2 ^ k)
  simpa [Nat.shiftRight_eq_div_pow] using lt_of_le_of_lt this hh

lemma hashNat_lt (x y seed : ℤ) : hashNat x y seed < 2 ^ 32 := by
  dsimp only [hashNat]
  exact xorshift_lt (Nat.mod_lt _ (by norm_num)) 15

lemma toInt32_bounds {n : Nat} (h : n < 2 ^ 32) :
    -(2 ^ 31 : ℤ) ≤ toInt32 n ∧ toInt32 n ≤ 2 ^ 31 - 1 := by
  unfold toInt32
  split <;> constructor <;> omega

lemma hash_mem (x y seed : ℤ) :
    hashLo ≤ hash x y seed ∧ hash x y seed ≤ hashHi := by
  have hb := toInt32_bounds (hashNat_lt x y seed)
  unfold hash hashLo hashHi
  rw [show ((2 : ℚ) ^ 32 - 1) = 0xFFFFFFFF from by norm_num]
  constructor
  · rw [div_le_div_iff_of_pos_right (by norm_num : (0 : ℚ) < 0xFFFFFFFF)]
    exact_mod_cast hb.1
  · rw [div_le_div_iff_of_pos_right (by norm_num : (0 : ℚ) < 0xFFFFFFFF)]
    exact_mod_cast hb.2

/-- At `(880, 164, -222)` the mixed 32-bit pattern is `0xFFFFFFFF`
(kernel-checked), whose signed int32 value is `-1`, so `hash` returns
exactly `-1 / 4294967295` there.  All intermediate integer values are
far below `2^53`, so the double pipeline of the source is exact at this
input. -/
lemma hash_value_at_cex : hash 880 164 (-222) = -(1 / 4294967295) := by
  rw [hash, show hashNat 880 164 (-222) = 0xFFFFFFFF from by decide,
    show toInt32 0xFFFFFFFF = (-1 : ℤ) from by decide]
  norm_num

lemma lerp_mem {lo hi a b t : ℚ} (ha0 : lo ≤ a) (ha1 : a ≤ hi) (hb0 : lo ≤ b)
    (hb1 : b ≤ hi) (ht0 : 0 ≤ t) (ht1 : t ≤ 1) :
    lo ≤ lerp a b t ∧ lerp a b t ≤ hi := by
  have hlo : (a - lo) * (1 - t) + (b - lo) * t = lerp a b t - lo := by
    rw [lerp]; ring
  have hhi : (hi - a) * (1 - t) + (hi - b) * t = hi - lerp a b t := by
    rw [lerp]; ring
  have h1 : 0 ≤ (a - lo) * (1 - t) := mul_nonneg (by linarith) (by linarith)
  have h2 : 0 ≤ (b - lo) * t := mul_nonneg (by linarith) ht0
  have h3 : 0 ≤ (hi - a) * (1 - t) := mul_nonneg (by linarith) (by linarith)
  have h4 : 0 ≤ (hi - b) * t := mul_nonneg (by linarith) ht0
  constructor <;> linarith

lemma smooth_bounds {t : ℚ} (h0 : 0 ≤ t) (h1 : t < 1) :
    0 ≤ t * t * (3 - 2 * t) ∧ t * t * (3 - 2 * t) ≤ 1 := by
  constructor
  · exact mul_nonneg (mul_nonneg h0 h0) (by linarith)
  · have key : 0 ≤ (1 - t) * (1 - t) * (1 + 2 * t) :=
      mul_nonneg (mul_nonneg (by linarith) (by linarith)) (by linarith)
    have expand : (1 - t) * (1 - t) * (1 + 2 * t) = 1 - t * t * (3 - 2 * t) := by
      ring
    linarith

lemma noise_mem (x y : ℚ) (s : ℤ) :
    hashLo ≤ noise x y s ∧ noise x y s ≤ hashHi := by
  dsimp only [noise]
  have hxf0 : (0 : ℚ) ≤ x - ↑⌊x⌋ := by
    have := Int.floor_le x; linarith
  have hxf1 : x - ↑⌊x⌋ < 1 := by
    have := Int.lt_floor_add_one x; linarith
  have hyf0 : (0 : ℚ) ≤ y - ↑⌊y⌋ := by
    have := Int.floor_le y; linarith
  have hyf1 : y - ↑⌊y⌋ < 1 := by
    have := Int.lt_floor_add_one y; linarith
  have hsx := smooth_bounds hxf0 hxf1
  have hsy := smooth_bounds hyf0 hyf1
  have h00 := hash_mem ⌊x⌋ ⌊y⌋ s
  have h10 := hash_mem (⌊x⌋ + 1) ⌊y⌋ s
  have h01 := hash_mem ⌊x⌋ (⌊y⌋ + 1) s
  have h11 := hash_mem (⌊x⌋ + 1) (⌊y⌋ + 1) s
  have hl1 := lerp_mem h00.1 h00.2 h10.1 h10.2 hsx.1 hsx.2
  have hl2 := lerp_mem h01.1 h01.2 h11.1 h11.2 hsx.1 hsx.2
  exact lerp_mem hl1.1 hl1.2 hl2.1 hl2.2 hsy.1 hsy.2

lemma noise_intCast (m n s : ℤ) : noise (m : ℚ) (n : ℚ) s = hash m n s := by
  dsimp only [noise]
  rw [Int.floor_intCast, Int.floor_intCast]
  simp [lerp]

lemma fbmLoop_mem (x y : ℚ) (s : ℤ) :
    ∀ (k i : Nat) (v amp freq maxv : ℚ), 0 < amp →
      hashLo * maxv ≤ v → v ≤ hashHi * maxv →
      hashLo * (fbmLoop x y s k i v amp freq maxv).2 ≤
          (fbmLoop x y s k i v amp freq maxv).1 ∧
      (fbmLoop x y s k i v amp freq maxv).1 ≤
          hashHi * (fbmLoop x y s k i v amp freq maxv).2 ∧
      maxv ≤ (fbmLoop x y s k i v amp freq maxv).2 := by
  intro k
  induction k with
  | zero =>
      intro i v amp freq maxv ha hv hvm
      exact ⟨hv, hvm, le_refl _⟩
  | succ n ih =>
      intro i v amp freq maxv ha hv hvm
      have hn := noise_mem (x * freq) (y * freq) (s + i)
      have hmul1 : hashLo * amp ≤ noise (x * freq) (y * freq) (s + i) * amp :=
        mul_le_mul_of_nonneg_right hn.1 ha.le
      have hmul2 : noise (x * freq) (y * freq) (s + i) * amp ≤ hashHi * amp :=
        mul_le_mul_of_nonneg_right hn.2 ha.le
      have hexp1 : hashLo * (maxv + amp) = hashLo * maxv + hashLo * amp := by
        ring
      have hexp2 : hashHi * (maxv + amp) = hashHi * maxv + hashHi * amp := by
        ring
      have h1 : hashLo * (maxv + amp) ≤
          v + noise (x * freq) (y * freq) (s + i) * amp := by linarith
      have h2 : v + noise (x * freq) (y * freq) (s + i) * amp ≤
          hashHi * (maxv + amp) := by linarith
      have hrec := ih (i + 1) (v + noise (x * freq) (y * freq) (s + i) * amp)
        (amp * (1 / 2)) (freq * 2) (maxv + amp) (by linarith) h1 h2
      refine ⟨?_, ?_, ?_⟩
      · simpa [fbmLoop] using hrec.1
      · simpa [fbmLoop] using hrec.2.1
      · have : maxv ≤ maxv + amp := by linarith
        simpa [fbmLoop] using le_trans this hrec.2.2

lemma fbm_mem (x y : ℚ) (s : ℤ) {o : Nat} (ho : 1 ≤ o) :
    hashLo ≤ fbm x y s o ∧ fbm x y s o ≤ hashHi := by
  obtain ⟨n, rfl⟩ : ∃ n, o = n + 1 := ⟨o - 1, by omega⟩
  simp only [fbm, fbmLoop]
  have hn := noise_mem (x * 1) (y * 1) (s + (0 : Nat))
  have hmul1 : hashLo * (1 / 2) ≤ noise (x * 1) (y * 1) (s + (0 : Nat)) * (1 / 2) :=
    mul_le_mul_of_nonneg_right hn.1 (by norm_num)
  have hmul2 : noise (x * 1) (y * 1) (s + (0 : Nat)) * (1 / 2) ≤ hashHi * (1 / 2) :=
    mul_le_mul_of_nonneg_right hn.2 (by norm_num)
  have hexp1 : hashLo * (0 + 1 / 2) = hashLo * (1 / 2) := by ring
  have hexp2 : hashHi * (0 + 1 / 2) = hashHi * (1 / 2) := by ring
  have h1 : hashLo * (0 + 1 / 2) ≤
      0 + noise (x * 1) (y * 1) (s + (0 : Nat)) * (1 / 2) := by linarith
  have h2 : 0 + noise (x * 1) (y * 1) (s + (0 : Nat)) * (1 / 2) ≤
      hashHi * (0 + 1 / 2) := by linarith
  have hb := fbmLoop_mem x y s n 1
    (0 + noise (x * 1) (y * 1) (s + (0 : Nat)) * (1 / 2))
    (1 / 2 * (1 / 2)) (1 * 2) (0 + 1 / 2) (by norm_num) h1 h2
  have hpos : (0 : ℚ) <
      (fbmLoop x y s n 1 (0 + noise (x * 1) (y * 1) (s + (0 : Nat)) * (1 / 2))
        (1 / 2 * (1 / 2)) (1 * 2) (0 + 1 / 2)).2 := by
    have : (0 : ℚ) + 1 / 2 ≤ _ := hb.2.2
    linarith
  constructor
  · rw [le_div_iff₀ hpos]
    exact hb.1
  · rw [div_le_iff₀ hpos]
    exact hb.2.1

/-! ## Helper lemmas: PNG assembly -/

lemma ihdrData_length (w h : ℤ) : (ihdrData w h).length = 13 := rfl

lemma makePNG_eq (w h : ℤ) (g : ℤ → ℤ → Pixel) (compress : List Nat → List Nat)
    (hw0 : 0 ≤ w) (hw : w < 2 ^ 32) (hh0 : 0 ≤ h) (hh : h < 2 ^ 32)
    (hc : (compress (pngRaw w h g)).length < 2 ^ 32) :
    makePNG w h g compress =
      some (SIG ++ chunkBytes tagIHDR (ihdrData w h)
        ++ chunkBytes tagIDAT (compress (pngRaw w h g))
        ++ chunkBytes tagIEND []) := by
  have hsize : ¬ h * (1 + w * 4) < 0 :=
    not_lt.mpr (mul_nonneg hh0 (by linarith))
  have h13 : (ihdrData w h).length < 2 ^ 32 := by
    rw [ihdrData_length]; norm_num
  have hnil : ([] : List Nat).length < 2 ^ 32 := by norm_num
  unfold makePNG
  rw [if_neg hsize]
  dsimp only
  rw [if_pos ⟨hw0, hw, hh0, hh⟩]
  simp only [chunk, if_pos h13, if_pos hc, if_pos hnil]

/-! ## Claim theorems -/

/-- C1 (counterexample).  The claim says `encode(0, 5, fn)` fails with an
invalid-geometry error and produces no output bytes.  In the code there
is no geometry check: with width `0` and height `5`, `makePNG` allocates
a 5-byte buffer of filter markers, compresses it, and emits a complete
container — the call succeeds and its output is non-empty. -/
theorem makePNG_zero_width_produces_output :
    (makePNG 0 5 pxZero id).isSome = true
    ∧ 0 < ((makePNG 0 5 pxZero id).getD []).length := by decide

/-- C1 (amended).  `encode(5, -1, fn)` does fail and produces no output
bytes, for every pixel function and compressor — but only because
`Buffer.alloc` rejects the negative size `-1 * (1 + 5*4)`, not through a
dedicated geometry validation, and zero dimensions are not rejected at
all. -/
theorem makePNG_negative_height_fails (g : ℤ → ℤ → Pixel)
    (compress : List Nat → List Nat) : makePNG 5 (-1) g compress = none := rfl

/-- C2.  A serialized chunk is exactly: 4-byte big-endian `len(data)`,
the 4 type bytes, `data`, then 4-byte big-endian `crc32(type ++ data)`;
the leading length field decodes to `len(data)` and the trailing 4 bytes
decode to `crc32(type ++ data)`. -/
theorem chunk_framing (type data : List Nat) (ht : type.length = 4)
    (hd : data.length < 2 ^ 32) :
    chunk type data = some (chunkBytes type data)
    ∧ (chunkBytes type data).length = 12 + data.length
    ∧ beVal ((chunkBytes type data).take 4) = data.length
    ∧ ((chunkBytes type data).drop 4).take 4 = type
    ∧ ((chunkBytes type data).drop 8).take data.length = data
    ∧ (chunkBytes type data).drop (8 + data.length) = u32be (crc32 (type ++ data))
    ∧ beVal ((chunkBytes type data).drop (8 + data.length)) = crc32 (type ++ data) := by
  have hassoc : chunkBytes type data
      = u32be data.length ++ (type ++ (data ++ u32be (crc32 (type ++ data)))) := by
    rw [chunkBytes, List.append_assoc, List.append_assoc]
  have hdrop8 : (chunkBytes type data).drop 8
      = data ++ u32be (crc32 (type ++ data)) := by
    rw [hassoc, show (8 : ℕ) = 4 + 4 from rfl, ← List.drop_drop,
      List.drop_left' (u32be_length _), List.drop_left' ht]
  refine ⟨by rw [chunk, if_pos hd], ?_, ?_, ?_, ?_, ?_, ?_⟩
  · rw [chunkBytes]
    simp [u32be, ht]
    omega
  · rw [hassoc, List.take_left' (u32be_length _), beVal_u32be hd]
  · rw [hassoc, List.drop_left' (u32be_length _), List.take_left' ht]
  · rw [hdrop8, List.take_left' rfl]
  · rw [← List.drop_drop, hdrop8, List.drop_left' rfl]
  · rw [← List.drop_drop, hdrop8, List.drop_left' rfl, beVal_u32be (crc32_lt _)]

/-- C2 witness: the framing facts instantiated at the concrete chunk
with type bytes `[1, 2, 3, 4]` and data `[5]`. -/
theorem chunk_framing_witness :
    chunk [1, 2, 3, 4] [5] = some (chunkBytes [1, 2, 3, 4] [5])
    ∧ (chunkBytes [1, 2, 3, 4] [5]).length = 12 + [5].length
    ∧ beVal ((chunkBytes [1, 2, 3, 4] [5]).take 4) = [5].length
    ∧ ((chunkBytes [1, 2, 3, 4] [5]).drop 4).take 4 = [1, 2, 3, 4]
    ∧ ((chunkBytes [1, 2, 3, 4] [5]).drop 8).take [5].length = [5]
    ∧ (chunkBytes [1, 2, 3, 4] [5]).drop (8 + [5].length)
        = u32be (crc32 ([1, 2, 3, 4] ++ [5]))
    ∧ beVal ((chunkBytes [1, 2, 3, 4] [5]).drop (8 + [5].length))
        = crc32 ([1, 2, 3, 4] ++ [5]) :=
  chunk_framing [1, 2, 3, 4] [5] (by decide) (by decide)

/-- C4.  The table-driven CRC-32 (polynomial `0xEDB88320`, initial
register `0xFFFFFFFF`, final complement) matches the IEEE 802.3
reference vectors: the empty input gives `0` and the ASCII bytes of
`"123456789"` give `0xCBF43926`. -/
theorem crc32_reference_vectors :
    crc32 [] = 0
    ∧ crc32 [49, 50, 51, 52, 53, 54, 55, 56, 57] = 0xCBF43926 := by decide

/-- C5.  Lattice collapse: at integer coordinates the fractional offsets
are zero, the smoothstep weights vanish, and `noise` returns the corner
value `hash(x, y, seed)` exactly. -/
theorem noise_lattice_collapse (m n s : ℤ) :
    noise (m : ℚ) (n : ℚ) s = hash m n s :=
  noise_intCast m n s

/-- C9.  Determinism: `makePNG` is a pure function of its four inputs —
two invocations with identical width, height, pixel function and
compressor produce byte-identical output. -/
theorem makePNG_deterministic (w h w' h' : ℤ) (g g' : ℤ → ℤ → Pixel)
    (c c' : List Nat → List Nat) (hw : w = w') (hh : h = h') (hg : g = g')
    (hc : c = c') : makePNG w h g c = makePNG w' h' g' c' := by
  subst hw; subst hh; subst hg; subst hc; rfl

/-- C9 witness: determinism instantiated at a concrete 2×2 call. -/
theorem makePNG_deterministic_witness :
    makePNG 2 2 pxDemo id = makePNG 2 2 pxDemo id :=
  makePNG_deterministic 2 2 2 2 pxDemo pxDemo id id rfl rfl rfl rfl

/-- C3.  For any admissible dimensions the encoder output is exactly the
8-byte signature `89 50 4E 47 0D 0A 1A 0A`, then the IHDR chunk whose
13-byte payload is width (4-byte BE), height (4-byte BE), bit depth 8,
color type 6 (truecolor with alpha), compression 0, filter 0,
interlace 0, then exactly one IDAT chunk holding the compressed raw
buffer, then an empty IEND chunk, and nothing else. -/
theorem makePNG_layout (w h : ℤ) (g : ℤ → ℤ → Pixel)
    (compress : List Nat → List Nat) (hw0 : 0 ≤ w) (hw : w < 2 ^ 32)
    (hh0 : 0 ≤ h) (hh : h < 2 ^ 32)
    (hc : (compress (pngRaw w h g)).length < 2 ^ 32) :
    makePNG w h g compress =
      some (SIG ++ chunkBytes tagIHDR (ihdrData w h)
        ++ chunkBytes tagIDAT (compress (pngRaw w h g))
        ++ chunkBytes tagIEND [])
    ∧ SIG = [0x89, 0x50, 0x4E, 0x47, 0x0D, 0x0A, 0x1A, 0x0A]
    ∧ (ihdrData w h).length = 13
    ∧ beVal ((ihdrData w h).take 4) = w.toNat
    ∧ beVal (((ihdrData w h).drop 4).take 4) = h.toNat
    ∧ (ihdrData w h).drop 8 = [8, 6, 0, 0, 0] := by
  have hwn : w.toNat < 2 ^ 32 := by omega
  have hhn : h.toNat < 2 ^ 32 := by omega
  have hassoc : ihdrData w h = u32be w.toNat ++ (u32be h.toNat ++ [8, 6, 0, 0, 0]) := by
    rw [ihdrData, List.append_assoc]
  refine ⟨makePNG_eq w h g compress hw0 hw hh0 hh hc, rfl, ihdrData_length w h,
    ?_, ?_, ?_⟩
  · rw [hassoc, List.take_left' (u32be_length _), beVal_u32be hwn]
  · rw [hassoc, List.drop_left' (u32be_length _), List.take_left' (u32be_length _),
      beVal_u32be hhn]
  · rw [hassoc, show (8 : ℕ) = 4 + 4 from rfl, ← List.drop_drop,
      List.drop_left' (u32be_length _), List.drop_left' (u32be_length _)]

/-- C3 witness: the layout instantiated at a concrete 1×1 call with the
identity as injected compressor. -/
theorem makePNG_layout_witness :
    makePNG 1 1 pxDemo id =
      some (SIG ++ chunkBytes tagIHDR (ihdrData 1 1)
        ++ chunkBytes tagIDAT (id (pngRaw 1 1 pxDemo))
        ++ chunkBytes tagIEND [])
    ∧ SIG = [0x89, 0x50, 0x4E, 0x47, 0x0D, 0x0A, 0x1A, 0x0A]
    ∧ (ihdrData 1 1).length = 13
    ∧ beVal ((ihdrData 1 1).take 4) = (1 : ℤ).toNat
    ∧ beVal (((ihdrData 1 1).drop 4).take 4) = (1 : ℤ).toNat
    ∧ (ihdrData 1 1).drop 8 = [8, 6, 0, 0, 0] :=
  makePNG_layout 1 1 pxDemo id (by norm_num) (by norm_num) (by norm_num)
    (by norm_num) (by decide)

/-- C7 (counterexample).  The claim says `hash` lands in `[0, 1)`.  The
source's final `h ^= h >>> 15` is a signed 32-bit XOR with no `>>> 0`,
so any pattern with bit 31 set comes out negative: at
`(x, y, seed) = (880, 164, -222)` the pattern is exactly `0xFFFFFFFF`,
its signed value is `-1`, and `hash` returns `-1 / 4294967295 < 0`,
outside `[0, 1)`. -/
theorem hash_negative_at_point :
    hash 880 164 (-222) = -(1 / 4294967295) ∧ hash 880 164 (-222) < 0 :=
  ⟨hash_value_at_cex, by rw [hash_value_at_cex]; norm_num⟩

/-- C7 (amended).  `hash` is a pure deterministic function of its three
integer inputs, and its result lies in the closed interval
`[-(2^31) / (2^32 - 1), (2^31 - 1) / (2^32 - 1)]` (about
`[-0.5, 0.5)`): the mixed pattern is reinterpreted as a SIGNED int32
before the division by `0xFFFFFFFF`, so the result can be negative and
is not confined to `[0, 1)`. -/
theorem hash_deterministic_and_bounded (x y s x' y' s' : ℤ)
    (hx : x = x') (hy : y = y') (hs : s = s') :
    hash x y s = hash x' y' s' ∧ hashLo ≤ hash x y s ∧ hash x y s ≤ hashHi := by
  subst hx; subst hy; subst hs
  exact ⟨rfl, (hash_mem x y s).1, (hash_mem x y s).2⟩

/-- C7 witness: determinism and the signed-range bounds at the concrete
triple `(1, 2, 3)`. -/
theorem hash_deterministic_and_bounded_witness :
    hash 1 2 3 = hash 1 2 3 ∧ hashLo ≤ hash 1 2 3 ∧ hash 1 2 3 ≤ hashHi :=
  hash_deterministic_and_bounded 1 2 3 1 2 3 rfl rfl rfl

/-- C6 (counterexample).  The claim says `fbm` lands in `[0, 1)`.  With
a single octave at the integer point `(880, 164)` and seed `-222`, the
only noise sample is `hash(880, 164, -222) = -1 / 4294967295` (the
signed-XOR counterexample), so the normalized sum is that same negative
value, outside `[0, 1)`. -/
theorem fbm_negative_at_point :
    fbm 880 164 (-222) 1 = -(1 / 4294967295) ∧ fbm 880 164 (-222) 1 < 0 := by
  have hn : noise (880 : ℚ) (164 : ℚ) (-222) = -(1 / 4294967295) := by
    have h := noise_intCast 880 164 (-222)
    push_cast at h
    rw [h, hash_value_at_cex]
  have hf : fbm 880 164 (-222) 1 = -(1 / 4294967295) := by
    simp only [fbm, fbmLoop]
    norm_num
    rw [hn]
  exact ⟨hf, by rw [hf]; norm_num⟩

/-- C6 (amended).  For every rational point, seed and octave count
`≥ 1`, `fbm` is a convex combination (amplitude-weighted average) of
noise samples, each of which lies in the signed hash range
`[-(2^31) / (2^32 - 1), (2^31 - 1) / (2^32 - 1)]`, so `fbm` lies in
that same closed interval; it is not confined to `[0, 1)` and can be
negative. -/
theorem fbm_bounded (x y : ℚ) (s : ℤ) (o : Nat) (ho : 1 ≤ o) :
    hashLo ≤ fbm x y s o ∧ fbm x y s o ≤ hashHi :=
  fbm_mem x y s ho

/-- C6 witness: the bounds at the concrete call `fbm(0, 0, 0, 4)`
(4 is the source's default octave count). -/
theorem fbm_bounded_witness :
    1 ≤ 4 ∧ (hashLo ≤ fbm 0 0 0 4 ∧ fbm 0 0 0 4 ≤ hashHi) :=
  ⟨by norm_num, fbm_bounded 0 0 0 4 (by norm_num)⟩

/-- C8.  For any dimensions the raw scanline buffer has length exactly
`height * (1 + width * 4)`; the byte at the start of each
`(1 + width*4)`-sized row is the filter marker `0`, and the bytes at
offsets `1 + 4*x + c` within row `y` are the R, G, B, A channel values
of pixel `(x, y)` (channels assumed in `[0, 255]`, as the call sites
guarantee by clamping). -/
theorem rawBuffer_layout (w h y x : Nat) (g : ℤ → ℤ → Pixel)
    (hy : y < h) (hx : x < w)
    (hr0 : 0 ≤ (g x y).1) (hr1 : (g x y).1 < 256)
    (hg0 : 0 ≤ (g x y).2.1) (hg1 : (g x y).2.1 < 256)
    (hb0 : 0 ≤ (g x y).2.2.1) (hb1 : (g x y).2.2.1 < 256)
    (ha0 : 0 ≤ (g x y).2.2.2) (ha1 : (g x y).2.2.2 < 256) :
    (rawData w h g).length = h * (1 + w * 4)
    ∧ (rawData w h g)[y * (1 + w * 4)]? = some 0
    ∧ (rawData w h g)[y * (1 + w * 4) + (1 + (4 * x + 0))]? = some (g x y).1.toNat
    ∧ (rawData w h g)[y * (1 + w * 4) + (1 + (4 * x + 1))]? = some (g x y).2.1.toNat
    ∧ (rawData w h g)[y * (1 + w * 4) + (1 + (4 * x + 2))]? = some (g x y).2.2.1.toNat
    ∧ (rawData w h g)[y * (1 + w * 4) + (1 + (4 * x + 3))]? = some (g x y).2.2.2.toNat := by
  refine ⟨rawData_length w h g, rawData_filter_byte w h g hy, ?_, ?_, ?_, ?_⟩
  · rw [rawData_pixel_byte w h g hy hx (by norm_num)]
    simp [pixelBytes, pngByte, Int.emod_eq_of_lt hr0 hr1]
  · rw [rawData_pixel_byte w h g hy hx (by norm_num)]
    simp [pixelBytes, pngByte, Int.emod_eq_of_lt hg0 hg1]
  · rw [rawData_pixel_byte w h g hy hx (by norm_num)]
    simp [pixelBytes, pngByte, Int.emod_eq_of_lt hb0 hb1]
  · rw [rawData_pixel_byte w h g hy hx (by norm_num)]
    simp [pixelBytes, pngByte, Int.emod_eq_of_lt ha0 ha1]

/-- C8 witness: the layout at a 1×1 buffer with pixel `(1, 2, 3, 4)`. -/
theorem rawBuffer_layout_witness :
    (rawData 1 1 pxDemo).length = 1 * (1 + 1 * 4)
    ∧ (rawData 1 1 pxDemo)[0 * (1 + 1 * 4)]? = some 0
    ∧ (rawData 1 1 pxDemo)[0 * (1 + 1 * 4) + (1 + (4 * 0 + 0))]? = some (pxDemo 0 0).1.toNat
    ∧ (rawData 1 1 pxDemo)[0 * (1 + 1 * 4) + (1 + (4 * 0 + 1))]? = some (pxDemo 0 0).2.1.toNat
    ∧ (rawData 1 1 pxDemo)[0 * (1 + 1 * 4) + (1 + (4 * 0 + 2))]? = some (pxDemo 0 0).2.2.1.toNat
    ∧ (rawData 1 1 pxDemo)[0 * (1 + 1 * 4) + (1 + (4 * 0 + 3))]? = some (pxDemo 0 0).2.2.2.toNat :=
  rawBuffer_layout 1 1 0 0 pxDemo (by decide) (by decide) (by decide) (by decide)
    (by decide) (by decide) (by decide) (by decide) (by decide) (by decide)

/-- C10.  The canvas performs no clamping: the byte written for each
channel is the channel value reduced modulo 256 (unsigned 8-bit
truncation of the buffer assignment), for every integer-valued pixel
function — out-of-range values wrap rather than saturate or error. -/
theorem rawBuffer_wraps_mod256 (w h y x : Nat) (g : ℤ → ℤ → Pixel)
    (hy : y < h) (hx : x < w) :
    (rawData w h g)[y * (1 + w * 4) + (1 + (4 * x + 0))]? = some ((g x y).1 % 256).toNat
    ∧ (rawData w h g)[y * (1 + w * 4) + (1 + (4 * x + 1))]? = some ((g x y).2.1 % 256).toNat
    ∧ (rawData w h g)[y * (1 + w * 4) + (1 + (4 * x + 2))]? = some ((g x y).2.2.1 % 256).toNat
    ∧ (rawData w h g)[y * (1 + w * 4) + (1 + (4 * x + 3))]? = some ((g x y).2.2.2 % 256).toNat := by
  refine ⟨?_, ?_, ?_, ?_⟩ <;>
    · rw [rawData_pixel_byte w h g hy hx (by norm_num)]
      simp [pixelBytes, pngByte]

/-- C10 witness: at a 1×1 buffer whose pixel function returns the
out-of-range channels `(300, -1, 256, 511)`, the stored bytes are the
wrapped values `44`, `255`, `0`, `255` — not saturated ones. -/
theorem rawBuffer_wraps_mod256_witness :
    ((rawData 1 1 pxWrap)[0 * (1 + 1 * 4) + (1 + (4 * 0 + 0))]? = some (((pxWrap 0 0).1 % 256).toNat)
      ∧ (rawData 1 1 pxWrap)[0 * (1 + 1 * 4) + (1 + (4 * 0 + 1))]? = some (((pxWrap 0 0).2.1 % 256).toNat)
      ∧ (rawData 1 1 pxWrap)[0 * (1 + 1 * 4) + (1 + (4 * 0 + 2))]? = some (((pxWrap 0 0).2.2.1 % 256).toNat)
      ∧ (rawData 1 1 pxWrap)[0 * (1 + 1 * 4) + (1 + (4 * 0 + 3))]? = some (((pxWrap 0 0).2.2.2 % 256).toNat))
    ∧ ((pxWrap 0 0).1 % 256).toNat = 44
    ∧ ((pxWrap 0 0).2.1 % 256).toNat = 255
    ∧ ((pxWrap 0 0).2.2.1 % 256).toNat = 0
    ∧ ((pxWrap 0 0).2.2.2 % 256).toNat = 255 :=
  ⟨rawBuffer_wraps_mod256 1 1 0 0 pxWrap (by decide) (by decide),
    by decide, by decide, by decide, by decide⟩

end DndSave
